import Mathlib

/-!
Verification of the grocy2mealie-sync reconciliation logic (src/main.py).

The Python functions are shallowly embedded as Lean functions: the HTTP
calls become function parameters returning either a transport error or a
response, Python dicts become association lists with replace-or-append
insertion, and the Python string operations used by the script (strip,
lower, the substring containment operator) are modelled by structural
recursion over character lists so that every definition evaluates inside
the kernel.
-/

namespace GrocySync

/-- Python truthiness of an optional string: None and the empty string are falsy. -/
def optTruthy : Option String → Bool
  | none => false
  | some s => !(s == "")

/-- Python `a or b` on optional strings: yields `a` when `a` is truthy, else `b`. -/
def pyOr (a b : Option String) : Option String :=
  if optTruthy a then a else b

/-- Helper for Python `str.strip`: drop leading whitespace from a character list. -/
def dropWS : List Char → List Char
  | [] => []
  | c :: t => if c.isWhitespace then dropWS t else c :: t

/-- Python `str.strip`: remove leading and trailing whitespace. -/
def pyStrip (s : String) : String :=
  ⟨(dropWS ((dropWS s.data).reverse)).reverse⟩

/-- Python `str.lower` (case folding of the letters, as used on item names here). -/
def pyLower (s : String) : String :=
  ⟨s.data.map Char.toLower⟩

/-- Does the character list `h` start with the character list `n`? -/
def startsWithCL : List Char → List Char → Bool
  | [], _ => true
  | _ :: _, [] => false
  | a :: n, b :: h => a == b && startsWithCL n h

/-- Occurrence of `n` as a contiguous block inside `h`, by scanning positions. -/
def containsCL (n : List Char) : List Char → Bool
  | [] => n.isEmpty
  | c :: t => startsWithCL n (c :: t) || containsCL n t

/-- Python `needle in hay` for strings: contiguous substring containment. -/
def pyIn (needle hay : String) : Bool :=
  containsCL needle.data hay.data

theorem startsWithCL_iff : ∀ (n h : List Char), startsWithCL n h = true ↔ ∃ r, h = n ++ r
  | [], h => by simp [startsWithCL]
  | _ :: _, [] => by simp [startsWithCL]
  | a :: n, b :: h => by
    simp only [startsWithCL, Bool.and_eq_true, beq_iff_eq, startsWithCL_iff n h,
      List.cons_append, List.cons.injEq]
    constructor
    · rintro ⟨hab, r, hr⟩
      exact ⟨r, hab.symm, hr⟩
    · rintro ⟨r, hba, hr⟩
      exact ⟨hba.symm, r, hr⟩

theorem containsCL_iff (n : List Char) :
    ∀ (h : List Char), containsCL n h = true ↔ ∃ l r, h = l ++ n ++ r
  | [] => by
    cases n <;> simp [containsCL, List.isEmpty]
  | c :: t => by
    simp only [containsCL, Bool.or_eq_true, startsWithCL_iff, containsCL_iff n t]
    constructor
    · rintro (⟨r, hr⟩ | ⟨l, r, hlr⟩)
      · exact ⟨[], r, by simp [hr]⟩
      · exact ⟨c :: l, r, by simp [hlr]⟩
    · rintro ⟨l, r, hlr⟩
      match l, hlr with
      | [], hlr => exact Or.inl ⟨r, by simpa using hlr⟩
      | x :: l', hlr =>
        rw [List.cons_append, List.cons_append, List.cons.injEq] at hlr
        exact Or.inr ⟨l', r, hlr.2⟩

/-- Python `in` agrees with the mathematical statement of contiguous substring containment. -/
theorem pyIn_iff (needle hay : String) :
    pyIn needle hay = true ↔ ∃ l r, hay.data = l ++ needle.data ++ r :=
  containsCL_iff needle.data hay.data

theorem containsCL_nil (h : List Char) : containsCL [] h = true := by
  cases h <;> simp [containsCL, startsWithCL, List.isEmpty]

/-- The empty string is a substring of every string. -/
theorem pyIn_empty (hay : String) : pyIn "" hay = true :=
  containsCL_nil hay.data

deriving instance DecidableEq for Except

/-- Value in the JSON request body built by `add_to_mealie_shopping_list`. -/
inductive JVal where
  | num (q : Rat)
  | str (s : String)
deriving DecidableEq

/-- Result of one outbound HTTP request: a transport-level error
(`requests.RequestException`) or a response with a status code and a body. -/
inductive HttpResult (α : Type) where
  | err (msg : String)
  | resp (status : Nat) (body : α)
deriving DecidableEq

/-- Model of `Response.raise_for_status`: raises for 4xx/5xx status codes,
otherwise yields the decoded body. -/
def raise_for_status {α : Type} : HttpResult α → Except String α
  | .err m => .error m
  | .resp st b => if 400 ≤ st ∧ st < 600 then .error ("HTTP " ++ toString st) else .ok b

/-- The nested food object of a Mealie shopping-list item. -/
structure Food where
  id : Option String
  name : Option String
deriving DecidableEq

/-- One element of the `items` collection of a Mealie shopping-list response. -/
structure MealieItem where
  id : Option String
  display : Option String
  shoppingListId : Option String
  foodId : Option String
  food : Option Food
deriving DecidableEq

/-- One page of the paginated Mealie response: the `items` list and the
`next` continuation indicator. -/
structure MealieResponse where
  items : List MealieItem
  next : Option String
deriving DecidableEq

/-- Python truthiness of the `next` field of a response. -/
def truthyNext (o : Option String) : Bool := optTruthy o

/-- Value stored in the shopping-list lookup for one entry. -/
structure EntryVal where
  display : String
  foodId : Option String
  itemId : Option String
deriving DecidableEq

/-- The destination lookup: a Python dict modelled as an association list. -/
abbrev Lookup := List (String × EntryVal)

/-- Python dict assignment `d[k] = v`: replace the binding in place, else append. -/
def insertAL {β : Type} : List (String × β) → String → β → List (String × β)
  | [], k, v => [(k, v)]
  | (k', v') :: rest, k, v =>
    if k' = k then (k, v) :: rest else (k', v') :: insertAL rest k v

/-- Python dict lookup `d.get(k)`. -/
def lookupAL {β : Type} : List (String × β) → String → Option β
  | [], _ => none
  | (k', v) :: rest, k => if k' = k then some v else lookupAL rest k

/-- The keys of a dict, in insertion order. -/
def keysOf {β : Type} (d : List (String × β)) : List String :=
  d.map Prod.fst

/-- The raw display text chain from the source:
`it.get("display") or (it.get("food") or {}).get("name") or ""`. -/
def rawDisplay (it : MealieItem) : String :=
  (pyOr it.display (match it.food with | some f => f.name | none => none)).getD ""

/-- The display text of an entry after the final `.strip()`. -/
def derivedDisplay (it : MealieItem) : String :=
  pyStrip (rawDisplay it)

/-- The value stored for an accepted entry: the stripped display text with its
original case, the foodId with fallback to the nested food id, and the item id. -/
def mkEntry (it : MealieItem) : EntryVal :=
  { display := derivedDisplay it
    foodId := pyOr it.foodId (match it.food with | some f => f.id | none => none)
    itemId := it.id }

/-- The loop body of `get_mealie_shopping_list_items` for one response item:
drop items of other lists, drop items whose derived display text is empty,
otherwise store under the lowercased display text. -/
def processItem (listId : String) (d : Lookup) (it : MealieItem) : Lookup :=
  if it.shoppingListId ≠ some listId then d
  else
    let display := derivedDisplay it
    if display = "" then d
    else insertAL d (pyLower display) (mkEntry it)

/-- The key/value binding an item contributes, when it is accepted. -/
def itemKV (listId : String) (it : MealieItem) : Option (String × EntryVal) :=
  if it.shoppingListId = some listId ∧ derivedDisplay it ≠ "" then
    some (pyLower (derivedDisplay it), mkEntry it)
  else none

/-- Folding one page's `items` list into the dict. -/
def processPage (listId : String) (d : Lookup) (resp : MealieResponse) : Lookup :=
  resp.items.foldl (processItem listId) d

/-- The dict built from a stream of response items, starting from the empty dict. -/
def mealieFold (listId : String) (items : List MealieItem) : Lookup :=
  items.foldl (processItem listId) []

/-- One paginated GET request: the `page` and `per_page` query parameters. -/
structure PageReq where
  page : Nat
  per_page : Nat
deriving DecidableEq

/-- The `while True` pagination loop of `get_mealie_shopping_list_items`,
with explicit fuel (one unit per iteration, `none` on exhaustion) and an
explicit trace of the issued page requests.  A transport error or a 4xx/5xx
status propagates as `Except.error`. -/
def fetchAux (server : PageReq → HttpResult MealieResponse) (listId : String) :
    Nat → Nat → Lookup → List PageReq → Option (Except String Lookup × List PageReq)
  | 0, _, _, _ => none
  | fuel + 1, page, acc, reqs =>
    let req : PageReq := ⟨page, 200⟩
    match raise_for_status (server req) with
    | .error e => some (.error e, reqs ++ [req])
    | .ok resp =>
      let acc' := processPage listId acc resp
      if truthyNext resp.next then fetchAux server listId fuel (page + 1) acc' (reqs ++ [req])
      else some (.ok acc', reqs ++ [req])

/-- `get_mealie_shopping_list_items`: paginated fetch, per_page 200, starting
at page 1, with an empty initial dict. -/
def get_mealie_shopping_list_items (server : PageReq → HttpResult MealieResponse)
    (listId : String) (fuel : Nat) : Option (Except String Lookup × List PageReq) :=
  fetchAux server listId fuel 1 [] []

/-- The JSON payload built by `add_to_mealie_shopping_list`:
the quantity, the stripped name as the note, and the list id. -/
def addPayload (item_name : String) (shopping_list_id : String) (quantity : Rat) :
    List (String × JVal) :=
  [("quantity", JVal.num quantity),
   ("note", JVal.str (pyStrip item_name)),
   ("shoppingListId", JVal.str shopping_list_id)]

/-- `add_to_mealie_shopping_list`: posts the payload; True exactly for
status 200/201; any other status or a transport error yields False. -/
def add_to_mealie_shopping_list (post : List (String × JVal) → HttpResult String)
    (item_name : String) (shopping_list_id : String) (quantity : Rat := 1) : Bool :=
  match post (addPayload item_name shopping_list_id quantity) with
  | .resp st _ => st == 200 || st == 201
  | .err _ => false

/-- One entry of `volatile.missing_products` (attributes read via getattr
may be absent). -/
structure GrocyItem where
  id : Option String
  name : Option String
deriving DecidableEq

/-- The volatile-stock object; `missing_products` may be absent or None. -/
structure Volatile where
  missing_products : Option (List GrocyItem)
deriving DecidableEq

/-- An understocked product as built by `get_understock_products`. -/
structure Product where
  id : Option String
  name : String
deriving DecidableEq

/-- Mapping of a single missing-product item to an `{id, name}` record;
None when the name attribute is absent or the empty string. -/
def grocyItemToProduct (it : GrocyItem) : Option Product :=
  match it.name with
  | none => none
  | some s => if s = "" then none else some ⟨it.id, s⟩

/-- `get_understock_products`: a transport error is caught and yields the
empty list; otherwise the missing products with a truthy name, in order. -/
def get_understock_products (fetch : Except String Volatile) : List Product :=
  match fetch with
  | .error _ => []
  | .ok v => (v.missing_products.getD []).filterMap grocyItemToProduct

/-- Normalization of a product name in the main loop: strip, then lower. -/
def name_key (s : String) : String := pyLower (pyStrip s)

/-- The `existing_keys` comprehension of the main loop: every dict key
re-stripped and re-lowercased. -/
def existing_keys (mealie_items : Lookup) : List String :=
  (keysOf mealie_items).map (fun k => pyLower (pyStrip k))

/-- Outcome of the reconciliation loop for one understocked product. -/
inductive ReconAction where
  | skip (name : String)
  | add (name : String) (quantity : Rat) (ok : Bool)
deriving DecidableEq

/-- The action shape with the add success flag erased. -/
def actionShape : ReconAction → ReconAction
  | .skip n => .skip n
  | .add n q _ => .add n q true

/-- The main loop body for a single understocked product: skip when the
normalized name occurs inside some existing key, else add with quantity 1.0. -/
def reconcileItem (adder : String → Rat → Bool) (ex : List String) (p : Product) : ReconAction :=
  let nk := name_key p.name
  if ex.any (fun key => pyIn nk key) then .skip p.name
  else .add p.name 1 (adder p.name 1)

/-- The per-product loop of `main`, over the whole understock list. -/
def reconcile (adder : String → Rat → Bool) (mealie_items : Lookup)
    (understock : List Product) : List ReconAction :=
  understock.map (reconcileItem adder (existing_keys mealie_items))

/-- Externally visible calls of one cycle, besides the paginated list read. -/
inductive CallEv where
  | grocyRead
  | mealiePost (payload : List (String × JVal))
deriving DecidableEq

/-- The POST calls that a list of reconcile actions performs. -/
def addCalls (listId : String) (actions : List ReconAction) : List CallEv :=
  actions.filterMap fun a =>
    match a with
    | .skip _ => none
    | .add n q _ => some (.mealiePost (addPayload n listId q))

/-- One iteration of the main loop's `try` block: fetch the destination
lookup; on error the exception propagates to the handler at the top of the
loop body and nothing else runs; otherwise read the understock list and
reconcile every product. -/
def runCycle (server : PageReq → HttpResult MealieResponse)
    (grocyFetch : Except String Volatile)
    (post : List (String × JVal) → HttpResult String)
    (listId : String) (fuel : Nat) :
    Option (Except String (List ReconAction) × List CallEv) :=
  match get_mealie_shopping_list_items server listId fuel with
  | none => none
  | some (.error e, _) => some (.error e, [])
  | some (.ok lookup, _) =>
    let understock := get_understock_products grocyFetch
    let actions := reconcile (fun n q => add_to_mealie_shopping_list post n listId q)
      lookup understock
    some (.ok actions, CallEv.grocyRead :: addCalls listId actions)

/-- Per-service health record. -/
structure ServiceHealth where
  reachable : Bool
  error : Option String
deriving DecidableEq

/-- The dict returned by `health_check`. -/
structure Health where
  status : String
  grocy : ServiceHealth
  mealie : ServiceHealth
deriving DecidableEq

/-- Boolean success of an embedded fallible call. -/
def exceptOk {α : Type} : Except String α → Bool
  | .ok _ => true
  | .error _ => false

/-- `health_check`: one volatile-stock read against Grocy and one
page-size-1 list read against Mealie; the aggregate status stays "healthy"
only when neither probe failed. -/
def health_check (grocyFetch : Except String Volatile)
    (server : PageReq → HttpResult MealieResponse) : Health :=
  let g : ServiceHealth :=
    match grocyFetch with
    | .ok _ => ⟨true, none⟩
    | .error e => ⟨false, some e⟩
  let m : ServiceHealth :=
    match raise_for_status (server ⟨1, 1⟩) with
    | .ok _ => ⟨true, none⟩
    | .error e => ⟨false, some e⟩
  ⟨if g.reachable && m.reachable then "healthy" else "unhealthy", g, m⟩

/-- The `health` entry path of `__main__`: exit code 0 for "healthy", else 1. -/
def health_mode_exit (grocyFetch : Except String Volatile)
    (server : PageReq → HttpResult MealieResponse) : Nat :=
  if (health_check grocyFetch server).status = "healthy" then 0 else 1

/-- Modelled from the spec (claim wording for the display fallback): the
display field when it is present and non-empty after trimming, otherwise the
name of the associated food object.  Written from the claim's words, for
comparison with `derivedDisplay`. -/
def claimDisplayText (it : MealieItem) : String :=
  let d := pyStrip (it.display.getD "")
  if d ≠ "" then d
  else pyStrip (match it.food with | some f => f.name.getD "" | none => "")

/-- Amended display-text selection: the raw display field when it is a
non-empty string (even when whitespace-only), otherwise the food name; the
selected text is then trimmed, and an empty trimmed text excludes the entry. -/
def amendedDisplayText (it : MealieItem) : String :=
  pyStrip (if it.display.getD "" ≠ "" then it.display.getD ""
    else match it.food with | some f => f.name.getD "" | none => "")

/-! ## Dictionary lemmas -/

theorem lookupAL_insertAL {β : Type} (d : List (String × β)) (k k' : String) (v : β) :
    lookupAL (insertAL d k v) k' = if k = k' then some v else lookupAL d k' := by
  induction d with
  | nil => simp [insertAL, lookupAL]
  | cons hd rest ih =>
    obtain ⟨k₀, v₀⟩ := hd
    simp only [insertAL]
    by_cases h : k₀ = k
    · subst h
      by_cases h' : k₀ = k' <;> simp [lookupAL, h']
    · by_cases h' : k₀ = k' <;> by_cases h'' : k = k' <;>
        simp_all [lookupAL]

theorem keysOf_nil {β : Type} : keysOf ([] : List (String × β)) = [] := rfl

theorem keysOf_cons {β : Type} (k : String) (v : β) (d : List (String × β)) :
    keysOf ((k, v) :: d) = k :: keysOf d := rfl

theorem keysOf_insertAL {β : Type} (d : List (String × β)) (k : String) (v : β) :
    keysOf (insertAL d k v) = if k ∈ keysOf d then keysOf d else keysOf d ++ [k] := by
  induction d with
  | nil => simp [insertAL, keysOf_nil, keysOf_cons]
  | cons hd rest ih =>
    obtain ⟨k₀, v₀⟩ := hd
    simp only [insertAL]
    by_cases h : k₀ = k
    · subst h
      simp [keysOf_cons]
    · have hne : ¬ k = k₀ := fun hh => h hh.symm
      by_cases hm : k ∈ keysOf rest <;>
        simp [keysOf_cons, ih, hm, hne, List.mem_cons, h]

theorem mem_keysOf_insertAL {β : Type} (d : List (String × β)) (k k' : String) (v : β) :
    k' ∈ keysOf (insertAL d k v) ↔ k' ∈ keysOf d ∨ k' = k := by
  rw [keysOf_insertAL]
  by_cases hm : k ∈ keysOf d
  · rw [if_pos hm]
    constructor
    · intro h
      exact Or.inl h
    · intro h
      rcases h with h | h
      · exact h
      · rw [h]
        exact hm
  · rw [if_neg hm]
    simp [List.mem_append]

theorem nodup_keysOf_insertAL {β : Type} (d : List (String × β)) (k : String) (v : β)
    (h : (keysOf d).Nodup) : (keysOf (insertAL d k v)).Nodup := by
  rw [keysOf_insertAL]
  split
  · exact h
  · next hm => simp [List.nodup_append, h, hm]

/-! ## Lemmas about the destination item fold -/

theorem processItem_eq (listId : String) (d : Lookup) (it : MealieItem) :
    processItem listId d it =
      match itemKV listId it with
      | none => d
      | some kv => insertAL d kv.1 kv.2 := by
  unfold processItem itemKV
  by_cases h1 : it.shoppingListId = some listId
  · by_cases h2 : derivedDisplay it = "" <;> simp [h1, h2]
  · simp [h1]

theorem itemKV_eq_some (listId : String) (it : MealieItem) (kv : String × EntryVal) :
    itemKV listId it = some kv ↔
      it.shoppingListId = some listId ∧ derivedDisplay it ≠ "" ∧
        kv = (pyLower (derivedDisplay it), mkEntry it) := by
  unfold itemKV
  by_cases h1 : it.shoppingListId = some listId ∧ derivedDisplay it ≠ ""
  · simp [h1, h1.1, h1.2, eq_comm]
  · simp only [if_neg h1]
    simp only [not_and_or] at h1
    rcases h1 with h | h <;> simp [h]

theorem lookupAL_foldl_processItem (listId : String) (items : List MealieItem) :
    ∀ (d : Lookup) (k : String),
      lookupAL (items.foldl (processItem listId) d) k =
        match ((items.filterMap (itemKV listId)).filter (fun kv => kv.1 == k)).getLast? with
        | some kv => some kv.2
        | none => lookupAL d k := by
  induction items with
  | nil => intro d k; simp
  | cons it rest ih =>
    intro d k
    rw [List.foldl_cons, ih (processItem listId d it) k]
    cases hkv : itemKV listId it with
    | none =>
      simp only [processItem_eq, hkv, List.filterMap_cons]
    | some kv =>
      obtain ⟨k₀, v₀⟩ := kv
      simp only [processItem_eq, hkv, List.filterMap_cons, List.filter_cons]
      by_cases hk : k₀ = k
      · simp only [hk, beq_self_eq_true, if_pos, List.getLast?_cons]
        cases hF : (((rest.filterMap (itemKV listId)).filter (fun kv => kv.1 == k))).getLast? with
        | none => simp [hF, lookupAL_insertAL, hk]
        | some f => simp [hF]
      · have hbk : ((k₀, v₀).1 == k) = false := by simp [hk]
        simp only [hbk, Bool.false_eq_true, if_neg, not_false_eq_true]
        cases hF : (((rest.filterMap (itemKV listId)).filter (fun kv => kv.1 == k))).getLast? with
        | none => simp [hF, lookupAL_insertAL, hk]
        | some f => simp [hF]

theorem mem_keysOf_foldl_processItem (listId : String) (items : List MealieItem) :
    ∀ (d : Lookup) (k : String),
      k ∈ keysOf (items.foldl (processItem listId) d) ↔
        k ∈ keysOf d ∨ ∃ kv ∈ items.filterMap (itemKV listId), kv.1 = k := by
  induction items with
  | nil => intro d k; simp
  | cons it rest ih =>
    intro d k
    rw [List.foldl_cons, ih (processItem listId d it) k]
    cases hkv : itemKV listId it with
    | none => simp [processItem_eq, hkv, List.filterMap_cons]
    | some kv =>
      obtain ⟨k₀, v₀⟩ := kv
      simp only [processItem_eq, hkv, List.filterMap_cons, mem_keysOf_insertAL,
        List.mem_cons]
      constructor
      · rintro ((h | h) | h)
        · exact Or.inl h
        · exact Or.inr ⟨(k₀, v₀), Or.inl rfl, h.symm⟩
        · obtain ⟨kv, hmem, hk⟩ := h
          exact Or.inr ⟨kv, Or.inr hmem, hk⟩
      · rintro (h | ⟨kv, hkv', hk⟩)
        · exact Or.inl (Or.inl h)
        · rcases hkv' with h' | h'
          · subst h'
            exact Or.inl (Or.inr hk.symm)
          · exact Or.inr ⟨kv, h', hk⟩

theorem nodup_keysOf_foldl_processItem (listId : String) (items : List MealieItem) :
    ∀ (d : Lookup), (keysOf d).Nodup →
      (keysOf (items.foldl (processItem listId) d)).Nodup := by
  induction items with
  | nil => intro d h; exact h
  | cons it rest ih =>
    intro d h
    rw [List.foldl_cons]
    apply ih
    cases hkv : itemKV listId it with
    | none => simpa [processItem_eq, hkv] using h
    | some kv =>
      rw [processItem_eq, hkv]
      exact nodup_keysOf_insertAL d kv.1 kv.2 h

/-! ## Lemmas about the pagination loop -/

/-- Default response used for positional indexing in hypotheses. -/
def emptyResp : MealieResponse := ⟨[], none⟩

theorem foldl_processPage_eq (listId : String) (resps : List MealieResponse) :
    ∀ (d : Lookup),
      resps.foldl (processPage listId) d =
        (resps.flatMap MealieResponse.items).foldl (processItem listId) d := by
  induction resps with
  | nil => intro d; rfl
  | cons r rest ih =>
    intro d
    rw [List.foldl_cons, ih, List.flatMap_cons, List.foldl_append]
    rfl

theorem range_map_shift (p n : Nat) :
    (List.range (n + 1)).map (fun i => PageReq.mk (p + i) 200) =
      PageReq.mk p 200 :: (List.range n).map (fun i => PageReq.mk (p + 1 + i) 200) := by
  rw [List.range_succ_eq_map, List.map_cons, List.map_map]
  have hf : ((fun i => PageReq.mk (p + i) 200) ∘ Nat.succ) =
      (fun i => PageReq.mk (p + 1 + i) 200) := by
    funext i
    simp only [Function.comp_apply, Nat.succ_eq_add_one]
    congr 1
    omega
  rw [hf]
  simp

theorem fetchAux_ok (server : PageReq → HttpResult MealieResponse) (listId : String)
    (resps : List MealieResponse) :
    ∀ (p : Nat) (acc : Lookup) (reqs : List PageReq) (fuel : Nat),
      (∀ i, i < resps.length →
        raise_for_status (server ⟨p + i, 200⟩) = .ok (resps.getD i emptyResp)) →
      (∀ i, i + 1 < resps.length → truthyNext (resps.getD i emptyResp).next = true) →
      truthyNext ((resps.getD (resps.length - 1) emptyResp).next) = false →
      resps ≠ [] →
      resps.length ≤ fuel →
      fetchAux server listId fuel p acc reqs =
        some (.ok (resps.foldl (processPage listId) acc),
          reqs ++ (List.range resps.length).map (fun i => ⟨p + i, 200⟩)) := by
  induction resps with
  | nil =>
    intro p acc reqs fuel _ _ _ hne _
    exact absurd rfl hne
  | cons r rest ih =>
    intro p acc reqs fuel hserv hnext hlast _ hfuel
    cases fuel with
    | zero => exact absurd hfuel (by simp)
    | succ f =>
      have h0 : raise_for_status (server ⟨p, 200⟩) = .ok r := by
        simpa using hserv 0 (by simp)
      simp only [fetchAux, h0]
      cases rest with
      | nil =>
        have hl : truthyNext r.next = false := by simpa using hlast
        simp [hl, processPage, List.range_succ]
      | cons r' rest' =>
        have ht : truthyNext r.next = true := by
          simpa using hnext 0 (by simp)
        have hserv' : ∀ i, i < (r' :: rest').length →
            raise_for_status (server ⟨p + 1 + i, 200⟩) = .ok ((r' :: rest').getD i emptyResp) := by
          intro i hi
          have hstep := hserv (i + 1) (by simpa using Nat.succ_lt_succ hi)
          rw [show p + 1 + i = p + (i + 1) by omega]
          simpa using hstep
        have hnext' : ∀ i, i + 1 < (r' :: rest').length →
            truthyNext ((r' :: rest').getD i emptyResp).next = true := by
          intro i hi
          simpa using hnext (i + 1) (by simpa using Nat.succ_lt_succ hi)
        have hlast' : truthyNext ((r' :: rest').getD ((r' :: rest').length - 1) emptyResp).next
            = false := by
          simpa using hlast
        have hfuel' : (r' :: rest').length ≤ f := by
          simp only [List.length_cons] at hfuel ⊢
          omega
        rw [ht, if_pos rfl]
        have hrec := ih (p + 1) (processPage listId acc r) (reqs ++ [PageReq.mk p 200]) f
          hserv' hnext' hlast' (by simp) hfuel'
        rw [hrec, List.foldl_cons,
          show ((r :: r' :: rest').length) = (r' :: rest').length + 1 from List.length_cons _ _,
          range_map_shift p (r' :: rest').length]
        simp [List.append_assoc]

/-- The successful paginated fetch, at the entry point: page 1, empty dict. -/
theorem get_mealie_ok (server : PageReq → HttpResult MealieResponse) (listId : String)
    (resps : List MealieResponse) (fuel : Nat)
    (hserv : ∀ i, i < resps.length →
      raise_for_status (server ⟨1 + i, 200⟩) = .ok (resps.getD i emptyResp))
    (hnext : ∀ i, i + 1 < resps.length → truthyNext (resps.getD i emptyResp).next = true)
    (hlast : truthyNext ((resps.getD (resps.length - 1) emptyResp).next) = false)
    (hne : resps ≠ [])
    (hfuel : resps.length ≤ fuel) :
    get_mealie_shopping_list_items server listId fuel =
      some (.ok (mealieFold listId (resps.flatMap MealieResponse.items)),
        (List.range resps.length).map (fun i => ⟨1 + i, 200⟩)) := by
  unfold get_mealie_shopping_list_items
  rw [fetchAux_ok server listId resps 1 [] [] fuel hserv hnext hlast hne hfuel]
  rw [foldl_processPage_eq]
  rfl

/-! ## Claim theorems -/

/-- Claim C3: `add_to_mealie_shopping_list` returns success if and only if the
response status code is 200 or 201; any other status code returns failure, and
a transport-level error also returns failure instead of escaping. -/
theorem add_result_status (post : List (String × JVal) → HttpResult String)
    (item_name shopping_list_id : String) (quantity : Rat) :
    add_to_mealie_shopping_list post item_name shopping_list_id quantity = true ↔
      ∃ st body, post (addPayload item_name shopping_list_id quantity) = .resp st body ∧
        (st = 200 ∨ st = 201) := by
  cases hp : post (addPayload item_name shopping_list_id quantity) with
  | err m =>
    simp [add_to_mealie_shopping_list, hp]
  | resp st body =>
    simp only [add_to_mealie_shopping_list, hp]
    constructor
    · intro h
      exact ⟨st, body, rfl, by simpa using h⟩
    · rintro ⟨st', b', heq, hor⟩
      injection heq with h1 h2
      subst h1
      rcases hor with rfl | rfl <;> simp

/-- Claim C7: the add request payload carries exactly the fields quantity,
note and shoppingListId; the note equals the trimmed name (so "  Bread  "
yields "Bread"); the quantity defaults to 1.0 when unspecified. -/
theorem add_payload_shape (post : List (String × JVal) → HttpResult String)
    (item_name shopping_list_id : String) (quantity : Rat) :
    (addPayload item_name shopping_list_id quantity).map Prod.fst =
      ["quantity", "note", "shoppingListId"] ∧
    lookupAL (addPayload item_name shopping_list_id quantity) "quantity" =
      some (.num quantity) ∧
    lookupAL (addPayload item_name shopping_list_id quantity) "note" =
      some (.str (pyStrip item_name)) ∧
    lookupAL (addPayload item_name shopping_list_id quantity) "shoppingListId" =
      some (.str shopping_list_id) ∧
    lookupAL (addPayload "  Bread  " shopping_list_id quantity) "note" =
      some (.str "Bread") ∧
    add_to_mealie_shopping_list post item_name shopping_list_id =
      add_to_mealie_shopping_list post item_name shopping_list_id 1 :=
  ⟨rfl, rfl, rfl, rfl, rfl, rfl⟩

/-- Claim C8: each missing-product item is mapped to an id/name pair and items
with an absent or empty name are silently dropped; a transport error yields the
empty sequence with no escaping exception. -/
theorem source_reader_result :
    (∀ e : String, get_understock_products (.error e) = []) ∧
    (∀ (v : Volatile) (p : Product),
      p ∈ get_understock_products (.ok v) ↔
        ∃ it ∈ v.missing_products.getD [],
          it.name = some p.name ∧ p.name ≠ "" ∧ it.id = p.id) := by
  constructor
  · intro e
    rfl
  · intro v p
    unfold get_understock_products
    rw [List.mem_filterMap]
    constructor
    · rintro ⟨it, hmem, hit⟩
      refine ⟨it, hmem, ?_⟩
      cases hname : it.name with
      | none => simp [grocyItemToProduct, hname] at hit
      | some s =>
        by_cases hs : s = ""
        · simp [grocyItemToProduct, hname, hs] at hit
        · simp only [grocyItemToProduct, hname, if_neg hs, Option.some.injEq] at hit
          subst hit
          exact ⟨rfl, hs, rfl⟩
    · rintro ⟨it, hmem, hname, hne, hid⟩
      refine ⟨it, hmem, ?_⟩
      simp only [grocyItemToProduct, hname, if_neg hne, Option.some.injEq, hid]

/-- Claim C4: when the paginated destination fetch ends in a transport error
or a non-success status, the error propagates out of the lister and the cycle
performs no Grocy read and no add operation: the cycle's call trace is empty. -/
theorem destination_failure_aborts_cycle
    (server : PageReq → HttpResult MealieResponse) (grocyFetch : Except String Volatile)
    (post : List (String × JVal) → HttpResult String) (listId : String) (fuel : Nat)
    (e : String) (reqs : List PageReq)
    (hfail : get_mealie_shopping_list_items server listId fuel = some (.error e, reqs)) :
    runCycle server grocyFetch post listId fuel = some (.error e, []) := by
  unfold runCycle
  rw [hfail]

/-- Witness for claim C4, at a transport error and at an HTTP 500 status. -/
theorem destination_failure_aborts_cycle_witness :
    get_mealie_shopping_list_items (fun _ => HttpResult.err "connection refused") "L" 3 =
      some (.error "connection refused", [⟨1, 200⟩]) ∧
    runCycle (fun _ => HttpResult.err "connection refused")
      (.ok ⟨some [⟨some "p", some "Milk"⟩]⟩) (fun _ => .resp 201 "") "L" 3 =
      some (.error "connection refused", []) ∧
    runCycle (fun _ => HttpResult.resp 500 emptyResp)
      (.ok ⟨some [⟨some "p", some "Milk"⟩]⟩) (fun _ => .resp 201 "") "L" 3 =
      some (.error "HTTP 500", []) :=
  ⟨by decide,
    destination_failure_aborts_cycle (fun _ => HttpResult.err "connection refused")
      (.ok ⟨some [⟨some "p", some "Milk"⟩]⟩) (fun _ => .resp 201 "") "L" 3
      "connection refused" [⟨1, 200⟩] (by decide),
    destination_failure_aborts_cycle (fun _ => HttpResult.resp 500 emptyResp)
      (.ok ⟨some [⟨some "p", some "Milk"⟩]⟩) (fun _ => .resp 201 "") "L" 3
      "HTTP 500" [⟨1, 200⟩] (by decide)⟩

/-- Counterexample to claim C5 as stated: for an entry whose display field is
present but whitespace-only and whose food name is "Cheese", the claim predicts
a fallback to the food name and inclusion under key "cheese", but the code
selects the truthy whitespace display, trims it to empty, and excludes the
entry from the lookup entirely. -/
theorem display_fallback_counterexample :
    derivedDisplay ⟨some "i1", some " ", some "L", none,
      some ⟨some "f1", some "Cheese"⟩⟩ = "" ∧
    mealieFold "L" [⟨some "i1", some " ", some "L", none,
      some ⟨some "f1", some "Cheese"⟩⟩] = [] ∧
    lookupAL (mealieFold "L" [⟨some "i1", some " ", some "L", none,
      some ⟨some "f1", some "Cheese"⟩⟩]) "cheese" = none ∧
    claimDisplayText ⟨some "i1", some " ", some "L", none,
      some ⟨some "f1", some "Cheese"⟩⟩ = "Cheese" := by
  refine ⟨rfl, rfl, rfl, rfl⟩

/-- Claim C5 (amended): the display text is the raw display field when that is
a non-empty string (even when whitespace-only), otherwise the food name when
present; the selected text is then trimmed, the entry is excluded exactly when
the trimmed text is empty (or when its list id differs), and otherwise it is
stored under the lowercased trimmed text. -/
theorem display_fallback_amended (it : MealieItem) :
    derivedDisplay it = amendedDisplayText it ∧
    (∀ (listId : String) (d : Lookup), derivedDisplay it = "" →
      processItem listId d it = d) ∧
    (∀ (listId : String) (d : Lookup), it.shoppingListId ≠ some listId →
      processItem listId d it = d) ∧
    (∀ (listId : String) (d : Lookup), it.shoppingListId = some listId →
      derivedDisplay it ≠ "" →
      processItem listId d it = insertAL d (pyLower (derivedDisplay it)) (mkEntry it)) := by
  refine ⟨?_, ?_, ?_, ?_⟩
  · unfold derivedDisplay rawDisplay amendedDisplayText pyOr optTruthy
    cases hd : it.display with
    | none => cases hf : it.food <;> simp
    | some s =>
      by_cases hs : s = ""
      · cases hf : it.food <;> simp [hs]
      · cases hf : it.food <;> simp [hs]
  · intro listId d hdisp
    unfold processItem
    by_cases h1 : it.shoppingListId ≠ some listId
    · rw [if_pos h1]
    · rw [if_neg h1]
      simp [hdisp]
  · intro listId d h1
    unfold processItem
    rw [if_pos h1]
  · intro listId d h1 h2
    unfold processItem
    rw [if_neg (by simpa using h1)]
    simp [h2]

/-- Witness for the amended claim C5. -/
theorem display_fallback_amended_witness :
    derivedDisplay (⟨some "i1", some "Bread", some "L", some "f1", none⟩ : MealieItem) =
      amendedDisplayText ⟨some "i1", some "Bread", some "L", some "f1", none⟩ ∧
    processItem "L" [] (⟨some "i1", none, some "L", none, none⟩ : MealieItem) = [] ∧
    processItem "L" [] (⟨some "i1", some "Bread", some "other", none, none⟩ : MealieItem) = [] ∧
    processItem "L" [] (⟨some "i1", some "Bread", some "L", some "f1", none⟩ : MealieItem) =
      insertAL []
        (pyLower (derivedDisplay ⟨some "i1", some "Bread", some "L", some "f1", none⟩))
        (mkEntry ⟨some "i1", some "Bread", some "L", some "f1", none⟩) :=
  ⟨(display_fallback_amended ⟨some "i1", some "Bread", some "L", some "f1", none⟩).1,
    (display_fallback_amended ⟨some "i1", none, some "L", none, none⟩).2.1 "L" [] (by decide),
    (display_fallback_amended ⟨some "i1", some "Bread", some "other", none, none⟩).2.2.1
      "L" [] (by decide),
    (display_fallback_amended ⟨some "i1", some "Bread", some "L", some "f1", none⟩).2.2.2
      "L" [] (by decide) (by decide)⟩

/-- Claim C10: a whitespace-only product name is not dropped by the source
reader (only absent or empty names are); its normalized key is the empty
string, a substring of every key, so the product is skipped whenever the
destination lookup is non-empty; with an empty lookup an add is issued and the
submitted note is the empty string. -/
theorem whitespace_name_behavior (v : Volatile) (it : GrocyItem) (s : String)
    (adder : String → Rat → Bool) (mealie_items : Lookup) (listId : String) (p : Product) :
    (it ∈ v.missing_products.getD [] → it.name = some s → s ≠ "" →
      (⟨it.id, s⟩ : Product) ∈ get_understock_products (.ok v)) ∧
    (pyStrip p.name = "" → mealie_items ≠ [] →
      reconcileItem adder (existing_keys mealie_items) p = .skip p.name) ∧
    (pyStrip p.name = "" → mealie_items = [] →
      reconcileItem adder (existing_keys mealie_items) p = .add p.name 1 (adder p.name 1) ∧
      addPayload p.name listId 1 =
        [("quantity", .num 1), ("note", .str ""), ("shoppingListId", .str listId)]) := by
  refine ⟨?_, ?_, ?_⟩
  · intro hmem hname hs
    unfold get_understock_products
    rw [List.mem_filterMap]
    exact ⟨it, hmem, by simp [grocyItemToProduct, hname, hs]⟩
  · intro hstrip hne
    have hkey : name_key p.name = "" := by
      rw [name_key, hstrip]
      rfl
    cases mealie_items with
    | nil => exact absurd rfl hne
    | cons hd tl =>
      unfold reconcileItem
      rw [hkey]
      simp [existing_keys, keysOf, pyIn_empty]
  · intro hstrip hempty
    subst hempty
    constructor
    · unfold reconcileItem
      simp [existing_keys, keysOf]
    · simp [addPayload, hstrip]

/-- Witness for claim C10: the product named " " survives the source reader;
it is skipped against a one-entry lookup; against an empty lookup it is added
and the submitted note is empty. -/
theorem whitespace_name_behavior_witness :
    (⟨some "p1", " "⟩ : Product) ∈
      get_understock_products (.ok ⟨some [⟨some "p1", some " "⟩]⟩) ∧
    reconcileItem (fun _ _ => true) (existing_keys [("x", ⟨"x", none, none⟩)])
      ⟨some "p1", " "⟩ = .skip " " ∧
    (reconcileItem (fun _ _ => true) (existing_keys []) ⟨some "p1", " "⟩ =
      .add " " 1 true ∧
      addPayload " " "L" 1 =
        [("quantity", .num 1), ("note", .str ""), ("shoppingListId", .str "L")]) :=
  ⟨(whitespace_name_behavior ⟨some [⟨some "p1", some " "⟩]⟩ ⟨some "p1", some " "⟩ " "
      (fun _ _ => true) [("x", ⟨"x", none, none⟩)] "L" ⟨some "p1", " "⟩).1
      (by decide) rfl (by decide),
    (whitespace_name_behavior ⟨some [⟨some "p1", some " "⟩]⟩ ⟨some "p1", some " "⟩ " "
      (fun _ _ => true) [("x", ⟨"x", none, none⟩)] "L" ⟨some "p1", " "⟩).2.1
      (by decide) (by decide),
    (whitespace_name_behavior ⟨some [⟨some "p1", some " "⟩]⟩ ⟨some "p1", some " "⟩ " "
      (fun _ _ => true) [] "L" ⟨some "p1", " "⟩).2.2 (by decide) rfl⟩

/-- Claim C9: the health check reports per-service reachability of its two
probes (Grocy volatile stock, Mealie list page of size 1), the aggregate
status is "healthy" exactly when both probes succeed, the health entry path
exits 0 exactly for "healthy" and 1 otherwise, and the check depends on the
destination service only through the single page-size-1 request. -/
theorem health_check_mode (grocyFetch : Except String Volatile)
    (server : PageReq → HttpResult MealieResponse) :
    (health_check grocyFetch server).grocy.reachable = exceptOk grocyFetch ∧
    (health_check grocyFetch server).mealie.reachable =
      exceptOk (raise_for_status (server ⟨1, 1⟩)) ∧
    ((health_check grocyFetch server).status = "healthy" ↔
      exceptOk grocyFetch = true ∧
        exceptOk (raise_for_status (server ⟨1, 1⟩)) = true) ∧
    ((health_check grocyFetch server).status = "healthy" ∨
      (health_check grocyFetch server).status = "unhealthy") ∧
    (health_mode_exit grocyFetch server = 0 ↔
      (health_check grocyFetch server).status = "healthy") ∧
    (health_mode_exit grocyFetch server = 0 ∨ health_mode_exit grocyFetch server = 1) ∧
    (∀ server' : PageReq → HttpResult MealieResponse, server' ⟨1, 1⟩ = server ⟨1, 1⟩ →
      health_check grocyFetch server' = health_check grocyFetch server) := by
  have hne : ("unhealthy" : String) ≠ "healthy" := by decide
  refine ⟨?_, ?_, ?_, ?_, ?_, ?_, fun server' h => by unfold health_check; rw [h]⟩ <;>
    cases grocyFetch <;> cases hres : raise_for_status (server ⟨1, 1⟩) <;>
      simp [health_check, health_mode_exit, exceptOk, hres, hne]

/-- Witness for claim C9, exercising the single-probe dependence at two
servers agreeing on the page-size-1 request. -/
theorem health_check_mode_witness :
    health_check (.ok ⟨none⟩)
      (fun req => if req = ⟨1, 1⟩ then HttpResult.resp 200 emptyResp else .err "x") =
      health_check (.ok ⟨none⟩) (fun _ => HttpResult.resp 200 emptyResp) :=
  (health_check_mode (.ok ⟨none⟩) (fun _ => HttpResult.resp 200 emptyResp)).2.2.2.2.2.2
    (fun req => if req = ⟨1, 1⟩ then HttpResult.resp 200 emptyResp else .err "x")
    (by decide)

/-- Every successful run of the pagination loop yields a dict whose keys are
distinct, provided the accumulator's keys are. -/
theorem fetchAux_nodup (server : PageReq → HttpResult MealieResponse) (listId : String) :
    ∀ (fuel p : Nat) (acc : Lookup) (reqs : List PageReq) (lookup : Lookup)
      (reqs' : List PageReq),
      (keysOf acc).Nodup →
      fetchAux server listId fuel p acc reqs = some (.ok lookup, reqs') →
      (keysOf lookup).Nodup := by
  intro fuel
  induction fuel with
  | zero =>
    intro p acc reqs lookup reqs' hnd h
    simp [fetchAux] at h
  | succ f ih =>
    intro p acc reqs lookup reqs' hnd h
    simp only [fetchAux] at h
    split at h
    · simp at h
    · next resp heq =>
      split at h
      · exact ih (p + 1) (processPage listId acc resp) (reqs ++ [⟨p, 200⟩]) lookup reqs'
          (nodup_keysOf_foldl_processItem listId resp.items acc hnd) h
      · simp only [Option.some.injEq, Prod.mk.injEq, Except.ok.injEq] at h
        obtain ⟨h1, h2⟩ := h
        subst h1
        exact nodup_keysOf_foldl_processItem listId resp.items acc hnd

/-- Claim C6: the resulting lookup never has two entries sharing a key, and
the value stored at a key is the one contributed by the last accepted item of
the response stream that normalizes to that key (last-write-wins, within a
page and across pages); every successful fetch yields a duplicate-free lookup. -/
theorem lookup_last_write_wins (listId : String) (items : List MealieItem) :
    (keysOf (mealieFold listId items)).Nodup ∧
    (∀ k : String,
      lookupAL (mealieFold listId items) k =
        (((items.filterMap (itemKV listId)).filter (fun kv => kv.1 == k)).getLast?).map
          Prod.snd) ∧
    (∀ (server : PageReq → HttpResult MealieResponse) (fuel : Nat) (lookup : Lookup)
        (reqs : List PageReq),
      get_mealie_shopping_list_items server listId fuel = some (.ok lookup, reqs) →
      (keysOf lookup).Nodup) := by
  refine ⟨?_, ?_, ?_⟩
  · exact nodup_keysOf_foldl_processItem listId items [] (by simp [keysOf_nil])
  · intro k
    rw [show mealieFold listId items = items.foldl (processItem listId) [] from rfl,
      lookupAL_foldl_processItem listId items [] k]
    cases (((items.filterMap (itemKV listId)).filter (fun kv => kv.1 == k)).getLast?) <;>
      simp [lookupAL]
  · intro server fuel lookup reqs h
    exact fetchAux_nodup server listId fuel 1 [] [] lookup reqs (by simp [keysOf_nil]) h

/-- Witness for claim C6: the later entry "bread" overwrites the earlier
"BREAD" across two pages, and the fetched lookup is duplicate-free. -/
theorem lookup_last_write_wins_witness :
    (keysOf (mealieFold "L" [⟨some "i1", some "BREAD", some "L", none, none⟩,
      ⟨some "i2", some "bread", some "L", none, none⟩])).Nodup ∧
    lookupAL (mealieFold "L" [⟨some "i1", some "BREAD", some "L", none, none⟩,
      ⟨some "i2", some "bread", some "L", none, none⟩]) "bread" =
      ((([(⟨some "i1", some "BREAD", some "L", none, none⟩ : MealieItem),
        ⟨some "i2", some "bread", some "L", none, none⟩].filterMap (itemKV "L")).filter
          (fun kv => kv.1 == "bread")).getLast?).map Prod.snd ∧
    (keysOf [("bread", (⟨"bread", none, some "i2"⟩ : EntryVal))]).Nodup :=
  ⟨(lookup_last_write_wins "L" [⟨some "i1", some "BREAD", some "L", none, none⟩,
      ⟨some "i2", some "bread", some "L", none, none⟩]).1,
    (lookup_last_write_wins "L" [⟨some "i1", some "BREAD", some "L", none, none⟩,
      ⟨some "i2", some "bread", some "L", none, none⟩]).2.1 "bread",
    (lookup_last_write_wins "L" []).2.2
      (fun req =>
        if req = ⟨1, 200⟩ then
          HttpResult.resp 200 ⟨[⟨some "i1", some "BREAD", some "L", none, none⟩], some "p2"⟩
        else if req = ⟨2, 200⟩ then
          HttpResult.resp 200 ⟨[⟨some "i2", some "bread", some "L", none, none⟩], none⟩
        else .err "x")
      5 [("bread", ⟨"bread", none, some "i2"⟩)] [⟨1, 200⟩, ⟨2, 200⟩] (by decide)⟩

/-- Claim C2: for every valid paginated response sequence (each page except
the last with a truthy continuation indicator, the last falsy), the fetch
requests pages of fixed size 200 starting at page 1, consuming exactly that
sequence, and the resulting lookup's keys are exactly the trimmed lowercased
display texts of the consumed entries whose list-association field equals the
requested list id. -/
theorem destination_lister_result (server : PageReq → HttpResult MealieResponse)
    (listId : String) (resps : List MealieResponse) (fuel : Nat)
    (hserv : ∀ i, i < resps.length →
      raise_for_status (server ⟨1 + i, 200⟩) = .ok (resps.getD i emptyResp))
    (hnext : ∀ i, i + 1 < resps.length → truthyNext (resps.getD i emptyResp).next = true)
    (hlast : truthyNext ((resps.getD (resps.length - 1) emptyResp).next) = false)
    (hne : resps ≠ [])
    (hfuel : resps.length ≤ fuel) :
    get_mealie_shopping_list_items server listId fuel =
      some (.ok (mealieFold listId (resps.flatMap MealieResponse.items)),
        (List.range resps.length).map (fun i => ⟨1 + i, 200⟩)) ∧
    (∀ k : String,
      k ∈ keysOf (mealieFold listId (resps.flatMap MealieResponse.items)) ↔
        ∃ it ∈ resps.flatMap MealieResponse.items,
          it.shoppingListId = some listId ∧ derivedDisplay it ≠ "" ∧
            pyLower (derivedDisplay it) = k) := by
  refine ⟨get_mealie_ok server listId resps fuel hserv hnext hlast hne hfuel, ?_⟩
  intro k
  rw [show mealieFold listId (resps.flatMap MealieResponse.items) =
    (resps.flatMap MealieResponse.items).foldl (processItem listId) [] from rfl]
  rw [mem_keysOf_foldl_processItem]
  simp only [keysOf_nil, List.not_mem_nil, false_or]
  constructor
  · rintro ⟨kv, hkv, hk⟩
    rw [List.mem_filterMap] at hkv
    obtain ⟨it, hit, hkv'⟩ := hkv
    rw [itemKV_eq_some] at hkv'
    obtain ⟨h1, h2, h3⟩ := hkv'
    refine ⟨it, hit, h1, h2, ?_⟩
    rw [← hk, h3]
  · rintro ⟨it, hit, h1, h2, h3⟩
    refine ⟨(pyLower (derivedDisplay it), mkEntry it), ?_, h3⟩
    rw [List.mem_filterMap]
    refine ⟨it, hit, ?_⟩
    rw [itemKV_eq_some]
    exact ⟨h1, h2, rfl⟩

/-- Witness for claim C2, at a concrete one-page response. -/
theorem destination_lister_result_witness :
    (∀ i, i < ([(⟨[⟨some "i1", some "Bread", some "L", none, none⟩], none⟩ :
        MealieResponse)]).length →
      raise_for_status
        ((fun _ => HttpResult.resp 200
          (⟨[⟨some "i1", some "Bread", some "L", none, none⟩], none⟩ : MealieResponse))
          (⟨1 + i, 200⟩ : PageReq)) =
        .ok ([(⟨[⟨some "i1", some "Bread", some "L", none, none⟩], none⟩ :
          MealieResponse)].getD i emptyResp)) ∧
    (get_mealie_shopping_list_items
        (fun _ => HttpResult.resp 200
          (⟨[⟨some "i1", some "Bread", some "L", none, none⟩], none⟩ : MealieResponse))
        "L" 1 =
      some (.ok (mealieFold "L"
          ([(⟨[⟨some "i1", some "Bread", some "L", none, none⟩], none⟩ :
            MealieResponse)].flatMap MealieResponse.items)),
        (List.range 1).map (fun i => ⟨1 + i, 200⟩)) ∧
      (∀ k : String,
        k ∈ keysOf (mealieFold "L"
            ([(⟨[⟨some "i1", some "Bread", some "L", none, none⟩], none⟩ :
              MealieResponse)].flatMap MealieResponse.items)) ↔
          ∃ it ∈ [(⟨[⟨some "i1", some "Bread", some "L", none, none⟩], none⟩ :
              MealieResponse)].flatMap MealieResponse.items,
            it.shoppingListId = some "L" ∧ derivedDisplay it ≠ "" ∧
              pyLower (derivedDisplay it) = k)) :=
  ⟨by decide,
    destination_lister_result
      (fun _ => HttpResult.resp 200
        (⟨[⟨some "i1", some "Bread", some "L", none, none⟩], none⟩ : MealieResponse))
      "L" [⟨[⟨some "i1", some "Bread", some "L", none, none⟩], none⟩] 1
      (by decide) (fun i hi => absurd hi (by simp)) (by decide) (by decide) (by decide)⟩

/-- Claim C1: for every destination lookup (whose keys are normalized, as the
lister guarantees) and every understocked product, the reconciler skips the
product exactly when its trimmed lowercased name occurs as a contiguous
substring inside at least one existing key (directional containment);
otherwise it issues exactly one add with the original product name and
quantity 1.0; and the success or failure of adds never changes which products
are processed or which actions are taken. -/
theorem reconciler_skip_add_rule (listId : String) (adder : String → Rat → Bool)
    (mealie_items : Lookup) (understock : List Product) (i : Nat) (p : Product)
    (hnorm : ∀ k ∈ keysOf mealie_items, pyLower (pyStrip k) = k)
    (hi : i < understock.length)
    (hp : understock.getD i ⟨none, ""⟩ = p) :
    (reconcile adder mealie_items understock).length = understock.length ∧
    ((reconcile adder mealie_items understock).getD i (.skip "") = .skip p.name ↔
      ∃ key ∈ keysOf mealie_items,
        ∃ l r, key.data = l ++ (name_key p.name).data ++ r) ∧
    (¬ (∃ key ∈ keysOf mealie_items,
        ∃ l r, key.data = l ++ (name_key p.name).data ++ r) →
      (reconcile adder mealie_items understock).getD i (.skip "") =
        .add p.name 1 (adder p.name 1) ∧
      addCalls listId [(reconcile adder mealie_items understock).getD i (.skip "")] =
        [.mealiePost (addPayload p.name listId 1)]) ∧
    (∀ adder' : String → Rat → Bool,
      (reconcile adder mealie_items understock).map actionShape =
        (reconcile adder' mealie_items understock).map actionShape) := by
  have hpi : p = understock[i] := by
    rw [← hp, List.getD_eq_getElem?_getD, List.getElem?_eq_getElem hi]
    rfl
  have hact : (reconcile adder mealie_items understock).getD i (.skip "") =
      reconcileItem adder (existing_keys mealie_items) p := by
    rw [hpi]
    simp only [reconcile]
    rw [List.getD_eq_getElem?_getD, List.getElem?_map, List.getElem?_eq_getElem hi]
    rfl
  have hrep : ((existing_keys mealie_items).any
      (fun key => pyIn (name_key p.name) key) = true) ↔
      ∃ key ∈ keysOf mealie_items,
        ∃ l r, key.data = l ++ (name_key p.name).data ++ r := by
    rw [List.any_eq_true]
    constructor
    · rintro ⟨key, hkey, hin⟩
      simp only [existing_keys, List.mem_map] at hkey
      obtain ⟨k₀, hk₀, hkeq⟩ := hkey
      have hkk : key = k₀ := hkeq.symm.trans (hnorm k₀ hk₀)
      refine ⟨k₀, hk₀, ?_⟩
      have hsub := (pyIn_iff (name_key p.name) key).mp hin
      rwa [hkk] at hsub
    · rintro ⟨key, hkey, l, r, hdata⟩
      refine ⟨key, ?_, ?_⟩
      · simp only [existing_keys, List.mem_map]
        exact ⟨key, hkey, hnorm key hkey⟩
      · rw [pyIn_iff]
        exact ⟨l, r, hdata⟩
  refine ⟨by simp [reconcile], ?_, ?_, ?_⟩
  · rw [hact]
    simp only [reconcileItem]
    by_cases hb : (existing_keys mealie_items).any
        (fun key => pyIn (name_key p.name) key) = true
    · rw [if_pos hb]
      constructor
      · intro _
        exact hrep.mp hb
      · intro _
        rfl
    · rw [if_neg hb]
      constructor
      · intro h
        simp at h
      · intro hex
        exact absurd (hrep.mpr hex) hb
  · intro hnot
    rw [hact]
    simp only [reconcileItem]
    have hb : ¬ ((existing_keys mealie_items).any
        (fun key => pyIn (name_key p.name) key) = true) :=
      fun hb => hnot (hrep.mp hb)
    rw [if_neg hb]
    exact ⟨rfl, rfl⟩
  · intro adder'
    simp only [reconcile, List.map_map]
    apply List.map_congr_left
    intro q hq
    simp only [Function.comp_apply, reconcileItem]
    by_cases hb : (existing_keys mealie_items).any
        (fun key => pyIn (name_key q.name) key) = true
    · rw [if_pos hb, if_pos hb]
    · rw [if_neg hb, if_neg hb]
      rfl

/-- Witness for claim C1: a lookup holding "whole wheat bread" makes the
product "Bread" skipped, with all four conclusions instantiated. -/
theorem reconciler_skip_add_rule_witness :
    (∀ k ∈ keysOf [("whole wheat bread", (⟨"Whole Wheat Bread", none, none⟩ : EntryVal))],
      pyLower (pyStrip k) = k) ∧
    (reconcile (fun _ _ => false)
      [("whole wheat bread", ⟨"Whole Wheat Bread", none, none⟩)]
      [⟨some "p1", "Bread"⟩]).length = 1 ∧
    ((reconcile (fun _ _ => false)
        [("whole wheat bread", ⟨"Whole Wheat Bread", none, none⟩)]
        [⟨some "p1", "Bread"⟩]).getD 0 (.skip "") = .skip "Bread" ↔
      ∃ key ∈ keysOf [("whole wheat bread", (⟨"Whole Wheat Bread", none, none⟩ : EntryVal))],
        ∃ l r, key.data = l ++ (name_key "Bread").data ++ r) ∧
    (¬ (∃ key ∈ keysOf [("whole wheat bread",
          (⟨"Whole Wheat Bread", none, none⟩ : EntryVal))],
        ∃ l r, key.data = l ++ (name_key "Bread").data ++ r) →
      (reconcile (fun _ _ => false)
          [("whole wheat bread", ⟨"Whole Wheat Bread", none, none⟩)]
          [⟨some "p1", "Bread"⟩]).getD 0 (.skip "") = .add "Bread" 1 false ∧
      addCalls "L" [(reconcile (fun _ _ => false)
          [("whole wheat bread", ⟨"Whole Wheat Bread", none, none⟩)]
          [⟨some "p1", "Bread"⟩]).getD 0 (.skip "")] =
        [.mealiePost (addPayload "Bread" "L" 1)]) ∧
    (∀ adder' : String → Rat → Bool,
      (reconcile (fun _ _ => false)
          [("whole wheat bread", ⟨"Whole Wheat Bread", none, none⟩)]
          [⟨some "p1", "Bread"⟩]).map actionShape =
        (reconcile adder' [("whole wheat bread", ⟨"Whole Wheat Bread", none, none⟩)]
          [⟨some "p1", "Bread"⟩]).map actionShape) :=
  ⟨by decide,
    (reconciler_skip_add_rule "L" (fun _ _ => false)
      [("whole wheat bread", ⟨"Whole Wheat Bread", none, none⟩)] [⟨some "p1", "Bread"⟩]
      0 ⟨some "p1", "Bread"⟩ (by decide) (by decide) (by decide)).1,
    (reconciler_skip_add_rule "L" (fun _ _ => false)
      [("whole wheat bread", ⟨"Whole Wheat Bread", none, none⟩)] [⟨some "p1", "Bread"⟩]
      0 ⟨some "p1", "Bread"⟩ (by decide) (by decide) (by decide)).2.1,
    (reconciler_skip_add_rule "L" (fun _ _ => false)
      [("whole wheat bread", ⟨"Whole Wheat Bread", none, none⟩)] [⟨some "p1", "Bread"⟩]
      0 ⟨some "p1", "Bread"⟩ (by decide) (by decide) (by decide)).2.2.1,
    (reconciler_skip_add_rule "L" (fun _ _ => false)
      [("whole wheat bread", ⟨"Whole Wheat Bread", none, none⟩)] [⟨some "p1", "Bread"⟩]
      0 ⟨some "p1", "Bread"⟩ (by decide) (by decide) (by decide)).2.2.2⟩

end GrocySync
